import Mathlib

/-!
Verification of `scripts/extract_ui_latency_metrics.py`.

The script mines "Latency metric <name>=<value>s" markers out of an
`.xcresult` bundle: `collect_test_ids` walks the test-node tree with an
explicit stack and gathers test-case identifiers (first-seen order, guarded
by a `seen` set), `scan_activities_for_metrics` walks each test case's
activity tree and writes regex-extracted metric pairs into a shared mapping
(last write wins), and `extract_metrics` orchestrates the two around an
external `xcresulttool` query, isolating per-test failures into an error
list and producing a report whose metric keys are sorted.

The embedding mirrors the Python dynamically-typed values with a `Json`
inductive; `dict.get` on a non-dict raises `AttributeError`, which the
loops model with an `Except` error outcome.  Numeric values are exact
rationals (the decimal strings captured by the regex map injectively onto
them).  Stack loops are translated verbatim (pop from the head, push the
filtered children reversed, matching Python's `list.pop()` from the end).
-/

namespace TraiMetrics

/-- A JSON value as produced by `json.loads`. -/
inductive Json where
  | null
  | bool (b : Bool)
  | num (q : Rat)
  | str (s : String)
  | arr (elems : List Json)
  | obj (fields : List (String × Json))

/-- Python's `isinstance(x, dict)`. -/
def Json.isObj : Json → Bool
  | .obj _ => true
  | _ => false

/-- Python's `isinstance(x, str)`. -/
def Json.isStr : Json → Bool
  | .str _ => true
  | _ => false

/-- Python's `isinstance(x, list)`. -/
def Json.isArr : Json → Bool
  | .arr _ => true
  | _ => false

/-- Python truthiness of a JSON value. -/
def pyTruthy : Json → Bool
  | .null => false
  | .bool b => b
  | .num q => decide (q ≠ 0)
  | .str s => decide (s ≠ "")
  | .arr elems => !elems.isEmpty
  | .obj fields => !fields.isEmpty

/-- Python `dict.get`: first binding of the key, `None` when absent. -/
def plookup : List (String × Json) → String → Option Json
  | [], _ => none
  | (k, v) :: rest, key => if k = key then some v else plookup rest key

/-- Python `a or b` over optional values (`none` models Python `None`). -/
def pyOr (a b : Option Json) : Option Json :=
  match a with
  | some v => if pyTruthy v then some v else b
  | none => b

/-- Errors a run of the script can raise. -/
inductive PyErr where
  | calledProcess (returncode : Int)
  | runtime (msg : String)
  | attrError
deriving DecidableEq

/-- The metric mapping: a Python dict from metric name to numeric value,
in insertion order. -/
abbrev MetricMap := List (String × Rat)

/-- Python `metrics[name] = value`: overwrite in place when the key exists,
append otherwise. -/
def dictInsert (m : MetricMap) (k : String) (v : Rat) : MetricMap :=
  if m.any (fun p => p.1 = k) then
    m.map (fun p => if p.1 = k then (k, v) else p)
  else m ++ [(k, v)]

/-- A character matching the regex class `[A-Za-z0-9_]`. -/
def isWordChar (c : Char) : Bool := c.isAlphanum || c = '_'

/-- Value of a digit string. -/
def digitsToNat (ds : List Char) : Nat :=
  ds.foldl (fun n c => 10 * n + (c.toNat - 48)) 0

/-- Exact rational value of the decimal literal `intDigits.fracDigits`,
the mathematical value Python's `float(...)` approximates. -/
def fracVal (intDigits fracDigits : List Char) : Rat :=
  mkRat (digitsToNat intDigits * 10 ^ fracDigits.length + digitsToNat fracDigits)
    (10 ^ fracDigits.length)

/-- Consume a literal character list from the front of the input. -/
def eatLit : List Char → List Char → Option (List Char)
  | [], cs => some cs
  | _ :: _, [] => none
  | l :: ls, c :: cs => if c = l then eatLit ls cs else none

/-- The characters of the literal part of `METRIC_PATTERN`. -/
def markerChars : List Char := "Latency metric ".data

/-- Match `([A-Za-z0-9_]+)=([0-9]+(?:\.[0-9]+)?)s` at the start of the
input (the part of `METRIC_PATTERN` after the literal).  The quantifiers
are greedy and, the follow-sets being disjoint from the repeated classes,
maximal munch is the unique regex outcome. -/
def matchAfterMarker (cs : List Char) : Option (String × Rat) :=
  let name := cs.takeWhile isWordChar
  let r1 := cs.dropWhile isWordChar
  if name.isEmpty then none else
  match r1 with
  | '=' :: r2 =>
    let d1 := r2.takeWhile Char.isDigit
    let r3 := r2.dropWhile Char.isDigit
    if d1.isEmpty then none else
    match r3 with
    | '.' :: r4 =>
      let d2 := r4.takeWhile Char.isDigit
      let r5 := r4.dropWhile Char.isDigit
      if d2.isEmpty then none else
      match r5 with
      | 's' :: _ => some (⟨name⟩, fracVal d1 d2)
      | _ => none
    | 's' :: _ => some (⟨name⟩, fracVal d1 [])
    | _ => none
  | _ => none

/-- Try the whole pattern at every start position, leftmost first. -/
def searchChars : List Char → Option (String × Rat)
  | [] => none
  | c :: cs =>
    match eatLit markerChars (c :: cs) with
    | some rest =>
      match matchAfterMarker rest with
      | some r => some r
      | none => searchChars cs
    | none => searchChars cs

/-- Model of `METRIC_PATTERN.search(title)`: leftmost match of
`Latency metric ([A-Za-z0-9_]+)=([0-9]+(?:\.[0-9]+)?)s`, returning the two
captures (name, parsed numeric value). -/
def METRIC_PATTERN_search (title : String) : Option (String × Rat) :=
  searchChars title.data

mutual

/-- Size of a JSON value, the termination measure of the tree walks. -/
def jsize : Json → Nat
  | .null => 1
  | .bool _ => 1
  | .num _ => 1
  | .str _ => 1
  | .arr elems => 1 + jsizeL elems
  | .obj fields => 1 + jsizeF fields

/-- Total size of the values on a worklist stack. -/
def jsizeL : List Json → Nat
  | [] => 0
  | j :: rest => jsize j + jsizeL rest

/-- Total size of the values of an object's fields. -/
def jsizeF : List (String × Json) → Nat
  | [] => 0
  | (_, j) :: rest => jsize j + jsizeF rest

end

theorem jsizeL_append (a b : List Json) : jsizeL (a ++ b) = jsizeL a + jsizeL b := by
  induction a with
  | nil => simp [jsizeL]
  | cons j rest ih => simp [jsizeL, ih]; omega

theorem jsizeL_cons (j : Json) (l : List Json) :
    jsizeL (j :: l) = jsize j + jsizeL l := rfl

theorem jsizeL_reverse (l : List Json) : jsizeL l.reverse = jsizeL l := by
  induction l with
  | nil => rfl
  | cons j rest ih => rw [List.reverse_cons, jsizeL_append, jsizeL_cons]; simp [jsizeL, ih]; omega

theorem jsizeL_filter_le (p : Json → Bool) (l : List Json) :
    jsizeL (l.filter p) ≤ jsizeL l := by
  induction l with
  | nil => simp [jsizeL]
  | cons a l ih =>
    by_cases h : p a <;> simp [List.filter_cons, h, jsizeL_cons] <;> omega

theorem jsize_pos (j : Json) : 0 < jsize j := by
  cases j <;> simp [jsize]

theorem jsize_mem_le (j : Json) (l : List Json) (h : j ∈ l) :
    jsize j ≤ jsizeL l := by
  induction l with
  | nil => cases h
  | cons a l ih =>
    rcases List.mem_cons.mp h with rfl | h
    · simp only [jsizeL_cons]; omega
    · have := ih h; simp only [jsizeL_cons]; omega

theorem plookup_mem (fields : List (String × Json)) (key : String) (v : Json)
    (h : plookup fields key = some v) : (key, v) ∈ fields := by
  induction fields with
  | nil => simp [plookup] at h
  | cons p rest ih =>
    obtain ⟨k, w⟩ := p
    by_cases hk : k = key
    · simp only [plookup, if_pos hk, Option.some.injEq] at h
      subst hk; subst h; exact List.mem_cons_self _ _
    · simp only [plookup, if_neg hk] at h
      exact List.mem_cons_of_mem _ (ih h)

theorem jsize_memF_le (fields : List (String × Json)) (k : String) (v : Json)
    (h : (k, v) ∈ fields) : jsize v ≤ jsizeF fields := by
  induction fields with
  | nil => cases h
  | cons p rest ih =>
    rcases List.mem_cons.mp h with heq | h
    · obtain ⟨k', v'⟩ := p
      cases heq
      simp only [jsizeF]; omega
    · have := ih h
      obtain ⟨k', v'⟩ := p
      simp only [jsizeF]; omega

theorem jsize_plookup_lt (fields : List (String × Json)) (key : String) (v : Json)
    (h : plookup fields key = some v) : jsize v < jsize (Json.obj fields) := by
  have hm := plookup_mem fields key v h
  have h1 : jsize v ≤ jsizeF fields := jsize_memF_le fields key v hm
  simp only [jsize]
  omega

/-- Children pushed on the stack by one loop iteration: the elements of the
node's child list that are dicts, reversed (Python pushes them in order and
pops from the end). -/
def childListOf (fields : List (String × Json)) (key : String) : List Json :=
  match plookup fields key with
  | some (.arr elems) => (elems.filter Json.isObj).reverse
  | _ => []

theorem jsizeL_childListOf_lt (fields : List (String × Json)) (key : String) :
    jsizeL (childListOf fields key) < jsize (Json.obj fields) := by
  cases h : plookup fields key with
  | none =>
    simp only [childListOf, h]
    simpa [jsizeL] using (jsize_pos (Json.obj fields))
  | some v =>
    cases v
    case arr elems =>
      have h1 : jsizeL ((elems.filter Json.isObj).reverse) ≤ jsizeL elems := by
        rw [jsizeL_reverse]; exact jsizeL_filter_le _ _
      have h2 : jsizeL elems < jsize (Json.arr elems) := by
        simp only [jsize]; omega
      have h3 : jsize (Json.arr elems) < jsize (Json.obj fields) :=
        jsize_plookup_lt fields key _ h
      simp only [childListOf, h]
      omega
    all_goals
      simp only [childListOf, h]
      simpa [jsizeL] using (jsize_pos (Json.obj fields))

theorem jsizeL_push_lt (fields : List (String × Json)) (key : String) (rest : List Json) :
    jsizeL (childListOf fields key ++ rest) < jsizeL (Json.obj fields :: rest) := by
  rw [jsizeL_append, jsizeL_cons]
  have := jsizeL_childListOf_lt fields key
  omega

theorem jsizeL_tail_lt (j : Json) (rest : List Json) :
    jsizeL rest < jsizeL (j :: rest) := by
  rw [jsizeL_cons]
  have := jsize_pos j
  omega

theorem mem_childListOf_isObj (fields : List (String × Json)) (key : String)
    (j : Json) (h : j ∈ childListOf fields key) : Json.isObj j = true := by
  unfold childListOf at h
  cases hp : plookup fields key with
  | none => rw [hp] at h; cases h
  | some v =>
    cases v
    case arr elems =>
      rw [hp] at h
      rw [List.mem_reverse] at h
      exact (List.mem_filter.mp h).2
    all_goals (rw [hp] at h; cases h)

/-- Record the metric pair of one activity's `title`, when the title is a
string and the pattern matches somewhere inside it. -/
def scanTitle (fields : List (String × Json)) (metrics : MetricMap) : MetricMap :=
  match plookup fields "title" with
  | some (.str t) =>
    match METRIC_PATTERN_search t with
    | some (n, v) => dictInsert metrics n v
    | none => metrics
  | _ => metrics

/-- The `while stack:` loop of `scan_activities_for_metrics`.  The head of
the list is the top of the stack; popping a non-dict raises
`AttributeError` (Python's `activity.get` on a non-dict). -/
def scanLoop : List Json → MetricMap → Except PyErr MetricMap
  | [], metrics => .ok metrics
  | .obj fields :: rest, metrics =>
    scanLoop (childListOf fields "childActivities" ++ rest) (scanTitle fields metrics)
  | .null :: _, _ => .error .attrError
  | .bool _ :: _, _ => .error .attrError
  | .num _ :: _, _ => .error .attrError
  | .str _ :: _, _ => .error .attrError
  | .arr _ :: _, _ => .error .attrError
termination_by stack _ => jsizeL stack
decreasing_by exact jsizeL_push_lt _ _ _

/-- Model of `scan_activities_for_metrics(activities, metrics)`: stack-based walk of
the activity forest, returning the updated mapping (the Python function
mutates `metrics` in place). -/
def scan_activities_for_metrics (activities : List Json) (metrics : MetricMap) :
    Except PyErr MetricMap :=
  scanLoop activities.reverse metrics

/-- Python `node_type == "Test Case"` (equality with a string is `False`
for `None` and for values of any other type). -/
def isTestCase : Option Json → Bool
  | some (.str s) => s = "Test Case"
  | _ => false

/-- One test-case check of `collect_test_ids`: given the popped node's
fields, update the `seen` set and the ordered identifier list. -/
def collectStep (fields : List (String × Json)) (seen tids : List String) :
    List String × List String :=
  if isTestCase (plookup fields "nodeType") then
    match pyOr (plookup fields "nodeIdentifierURL") (plookup fields "nodeIdentifier") with
    | some (.str s) =>
      if s ≠ "" ∧ s ∉ seen then (s :: seen, tids ++ [s]) else (seen, tids)
    | _ => (seen, tids)
  else (seen, tids)

/-- The `while stack:` loop of `collect_test_ids`. -/
def collectLoop : List Json → List String → List String → Except PyErr (List String)
  | [], _, tids => .ok tids
  | .obj fields :: rest, seen, tids =>
    collectLoop (childListOf fields "children" ++ rest)
      (collectStep fields seen tids).1 (collectStep fields seen tids).2
  | .null :: _, _, _ => .error .attrError
  | .bool _ :: _, _, _ => .error .attrError
  | .num _ :: _, _, _ => .error .attrError
  | .str _ :: _, _, _ => .error .attrError
  | .arr _ :: _, _, _ => .error .attrError
termination_by stack _ _ => jsizeL stack
decreasing_by exact jsizeL_push_lt _ _ _

/-- Model of `collect_test_ids(test_nodes)`: de-duplicated identifiers of the
"Test Case" nodes, in first-seen order of the stack walk. -/
def collect_test_ids (test_nodes : List Json) : Except PyErr (List String) :=
  collectLoop test_nodes.reverse [] []

/-- Lexicographic comparison of character lists by code point, Python's
string `<`. -/
def charListLt : List Char → List Char → Bool
  | [], [] => false
  | [], _ :: _ => true
  | _ :: _, [] => false
  | a :: as, b :: bs =>
    if a < b then true else if b < a then false else charListLt as bs

/-- Python tuple comparison `(name, value) <= (name', value')` on the
items of the metric dict, as used by `sorted(metrics.items())`. -/
def pairLeB (a b : String × Rat) : Bool :=
  charListLt a.1.data b.1.data || (decide (a.1 = b.1) && decide (a.2 ≤ b.2))

/-- Propositional form of `pairLeB`. -/
def pairLe (a b : String × Rat) : Prop := pairLeB a b = true

instance : DecidableRel pairLe := fun a b => instDecidableEqBool (pairLeB a b) true

/-- Python `dict(sorted(metrics.items()))`: the metric items sorted by the
tuple order (unique keys make this a sort by key). -/
def sortPairs (m : MetricMap) : MetricMap := List.insertionSort pairLe m

/-- The report object returned by `extract_metrics`. -/
structure Report where
  xcresult_path : String
  tests_scanned : Nat
  metric_count : Nat
  metrics : MetricMap
  errors : List (String × String)
deriving DecidableEq

/-- The error entry recorded when the activities query for one test
identifier fails with a process exit code. -/
def errEntry (testId : String) (returncode : Int) : String × String :=
  (testId, "xcresulttool activities failed with exit code " ++ toString returncode)

/-- Scan the run objects of one activities payload (`for run in test_runs`). -/
def runsLoop : List Json → MetricMap → Except PyErr MetricMap
  | [], metrics => .ok metrics
  | .obj runFields :: rest, metrics =>
    match plookup runFields "activities" with
    | some (.arr activities) =>
      match scan_activities_for_metrics activities metrics with
      | .ok metrics' => runsLoop rest metrics'
      | .error e => .error e
    | _ => runsLoop rest metrics
  | _ :: rest, metrics => runsLoop rest metrics

/-- Process one successfully fetched activities payload: look up
`testRuns` (raising `AttributeError` on a non-dict payload), skip silently
when it is not a list, and scan each run's activities. -/
def processOne (payload : Json) (metrics : MetricMap) : Except PyErr MetricMap :=
  match payload with
  | .obj payloadFields =>
    match plookup payloadFields "testRuns" with
    | some (.arr runs) => runsLoop runs metrics
    | _ => .ok metrics
  | _ => .error .attrError

/-- The `for test_id in test_ids` loop of `extract_metrics`: a failed
activities query appends one error entry and continues; a successful one
feeds the payload to the scanner. -/
def idsLoop (queryActivities : String → Except Int Json) :
    List String → MetricMap → List (String × String) →
    Except PyErr (MetricMap × List (String × String))
  | [], metrics, errs => .ok (metrics, errs)
  | testId :: rest, metrics, errs =>
    match queryActivities testId with
    | .error code => idsLoop queryActivities rest metrics (errs ++ [errEntry testId code])
    | .ok payload =>
      match processOne payload metrics with
      | .ok metrics' => idsLoop queryActivities rest metrics' errs
      | .error e => .error e

/-- Model of `extract_metrics(xcresult_path)`, with the two `xcresulttool`
invocations abstracted as injectable queries (`.error code` models a
`CalledProcessError` with that return code). -/
def extract_metrics (xcresultPath : String) (queryTests : Except Int Json)
    (queryActivities : String → Except Int Json) : Except PyErr Report :=
  match queryTests with
  | .error code => .error (.calledProcess code)
  | .ok testsPayload =>
    match testsPayload with
    | .obj payloadFields =>
      match plookup payloadFields "testNodes" with
      | some (.arr testNodes) =>
        match collect_test_ids testNodes with
        | .error e => .error e
        | .ok testIds =>
          match idsLoop queryActivities testIds [] [] with
          | .error e => .error e
          | .ok (metrics, extractionErrors) =>
            .ok { xcresult_path := xcresultPath
                , tests_scanned := testIds.length
                , metric_count := metrics.length
                , metrics := sortPairs metrics
                , errors := extractionErrors }
      | _ => .error (.runtime "Unable to parse test nodes from xcresult.")
    | _ => .error .attrError

/-- No metric marker in this node's own title (a non-string title never
matches). -/
def titleClean (fields : List (String × Json)) : Bool :=
  match plookup fields "title" with
  | some (.str t) => (METRIC_PATTERN_search t).isNone
  | _ => true

/-- No metric marker anywhere in the trees reachable from this worklist,
following exactly the scanner's notion of reachability. -/
def cleanStack : List Json → Bool
  | [] => true
  | .obj fields :: rest =>
    titleClean fields && cleanStack (childListOf fields "childActivities" ++ rest)
  | _ :: rest => cleanStack rest
termination_by stack => jsizeL stack
decreasing_by
  · exact jsizeL_push_lt _ _ _
  · exact jsizeL_tail_lt _ _

/-- A run object whose activities the scanner can walk without raising:
every element of an `activities` list is a dict. -/
def runSafe : Json → Bool
  | .obj runFields =>
    match plookup runFields "activities" with
    | some (.arr activities) => activities.all Json.isObj
    | _ => true
  | _ => true

/-- An activities payload the per-identifier processing accepts without
raising: a dict whose `testRuns` runs are all safe to scan. -/
def activitiesSafe : Json → Bool
  | .obj payloadFields =>
    match plookup payloadFields "testRuns" with
    | some (.arr runs) => runs.all runSafe
    | _ => true
  | _ => false

/-- The payloads of the identifiers whose activities query succeeds, in
identifier order. -/
def successPayloads (queryActivities : String → Except Int Json)
    (ids : List String) : List Json :=
  ids.filterMap (fun i => (queryActivities i).toOption)

/-- One error entry per identifier whose activities query fails, in
identifier order. -/
def failEntries (queryActivities : String → Except Int Json)
    (ids : List String) : List (String × String) :=
  ids.filterMap (fun i =>
    match queryActivities i with
    | .error code => some (errEntry i code)
    | .ok _ => none)

/-- Scan a list of activities payloads in order into the shared mapping. -/
def foldScan : List Json → MetricMap → Except PyErr MetricMap
  | [], metrics => .ok metrics
  | payload :: rest, metrics =>
    match processOne payload metrics with
    | .ok metrics' => foldScan rest metrics'
    | .error e => .error e

/-- Python `metrics[name]` on the metric dict. -/
def mlookup : MetricMap → String → Option Rat
  | [], _ => none
  | (k, v) :: rest, key => if k = key then some v else mlookup rest key

theorem mlookup_dictInsert_self (m : MetricMap) (k : String) (v : Rat) :
    mlookup (dictInsert m k v) k = some v := by
  induction m with
  | nil => simp [dictInsert, mlookup]
  | cons p rest ih =>
    obtain ⟨k', v'⟩ := p
    by_cases hk : k' = k
    · subst hk
      simp [dictInsert, mlookup]
    · by_cases hr : rest.any (fun p => p.1 = k) = true
      · have hany : (((k', v') :: rest).any (fun p => p.1 = k)) = true := by
          simp [List.any_cons, hr]
        rw [dictInsert, if_pos hany, List.map_cons]
        have hp : (if (k', v').1 = k then (k, v) else (k', v')) = (k', v') := by
          simp [hk]
        rw [hp, mlookup, if_neg hk]
        have := ih
        rw [dictInsert, if_pos hr] at this
        exact this
      · have hany : ¬ ((((k', v') :: rest).any (fun p => p.1 = k)) = true) := by
          simp [List.any_cons, hk]
          simpa using hr
        rw [dictInsert, if_neg hany, List.cons_append, mlookup, if_neg hk]
        have := ih
        rw [dictInsert, if_neg hr] at this
        exact this

theorem charListLt_trans (a : List Char) :
    ∀ b c, charListLt a b = true → charListLt b c = true → charListLt a c = true := by
  induction a with
  | nil =>
    intro b c hab hbc
    cases b with
    | nil => simp [charListLt] at hab
    | cons y ys =>
      cases c with
      | nil => simp [charListLt] at hbc
      | cons z zs => simp [charListLt]
  | cons x xs ih =>
    intro b c hab hbc
    cases b with
    | nil => simp [charListLt] at hab
    | cons y ys =>
      cases c with
      | nil => simp [charListLt] at hbc
      | cons z zs =>
        simp only [charListLt] at hab hbc ⊢
        by_cases hxy : x < y
        · by_cases hyz : y < z
          · simp [lt_trans hxy hyz]
          · by_cases hzy : z < y
            · simp [if_pos hxy] at hab
              simp [if_neg hyz, if_pos hzy] at hbc
            · have hyz' : y = z := le_antisymm (le_of_not_lt hzy) (le_of_not_lt hyz)
              subst hyz'
              simp [hxy]
        · by_cases hyx : y < x
          · simp [if_neg hxy, if_pos hyx] at hab
          · have hxy' : x = y := le_antisymm (le_of_not_lt hyx) (le_of_not_lt hxy)
            subst hxy'
            simp only [if_neg hxy, if_neg hyx] at hab
            by_cases hyz : x < z
            · simp [hyz]
            · by_cases hzy : z < x
              · simp [if_neg hyz, if_pos hzy] at hbc
              · have : x = z := le_antisymm (le_of_not_lt hzy) (le_of_not_lt hyz)
                subst this
                simp only [if_neg hyz, lt_irrefl, if_neg] at hbc ⊢
                exact ih _ _ hab hbc

theorem charListLt_total (a : List Char) :
    ∀ b, charListLt a b = true ∨ a = b ∨ charListLt b a = true := by
  induction a with
  | nil =>
    intro b
    cases b with
    | nil => right; left; rfl
    | cons y ys => left; simp [charListLt]
  | cons x xs ih =>
    intro b
    cases b with
    | nil => right; right; simp [charListLt]
    | cons y ys =>
      by_cases hxy : x < y
      · left; simp [charListLt, hxy]
      · by_cases hyx : y < x
        · right; right; simp [charListLt, hyx]
        · have hxy' : x = y := le_antisymm (le_of_not_lt hyx) (le_of_not_lt hxy)
          subst hxy'
          rcases ih ys with h | h | h
          · left; simp [charListLt, h]
          · right; left; rw [h]
          · right; right; simp [charListLt, h]

instance : IsTrans (String × Rat) pairLe := by
  constructor
  intro a b c hab hbc
  simp only [pairLe, pairLeB, Bool.or_eq_true, Bool.and_eq_true, decide_eq_true_eq] at hab hbc ⊢
  rcases hab with hab | ⟨hab1, hab2⟩
  · rcases hbc with hbc | ⟨hbc1, hbc2⟩
    · exact Or.inl (charListLt_trans _ _ _ hab hbc)
    · exact Or.inl (hbc1 ▸ hab)
  · rcases hbc with hbc | ⟨hbc1, hbc2⟩
    · exact Or.inl (hab1 ▸ hbc)
    · exact Or.inr ⟨hab1.trans hbc1, hab2.trans hbc2⟩

instance : IsTotal (String × Rat) pairLe := by
  constructor
  intro a b
  simp only [pairLe, pairLeB, Bool.or_eq_true, Bool.and_eq_true, decide_eq_true_eq]
  rcases charListLt_total a.1.data b.1.data with h | h | h
  · exact Or.inl (Or.inl h)
  · have hk : a.1 = b.1 := String.ext h
    rcases le_total a.2 b.2 with hv | hv
    · exact Or.inl (Or.inr ⟨hk, hv⟩)
    · exact Or.inr (Or.inr ⟨hk.symm, hv⟩)
  · exact Or.inr (Or.inl h)

theorem sortPairs_sorted (m : MetricMap) : List.Sorted pairLe (sortPairs m) :=
  List.sorted_insertionSort pairLe m

theorem charListLt_lex (x : List Char) :
    ∀ y, charListLt x y = true → List.Lex (fun a b : Char => a < b) x y := by
  induction x with
  | nil =>
    intro y h
    cases y with
    | nil => simp [charListLt] at h
    | cons b bs => exact List.Lex.nil
  | cons a as ih =>
    intro y h
    cases y with
    | nil => simp [charListLt] at h
    | cons b bs =>
      simp only [charListLt] at h
      by_cases hab : a < b
      · exact List.Lex.rel hab
      · by_cases hba : b < a
        · simp [if_neg hab, if_pos hba] at h
        · have : a = b := le_antisymm (le_of_not_lt hba) (le_of_not_lt hab)
          subst this
          simp only [lt_irrefl, if_neg] at h
          exact List.Lex.cons (ih bs h)

theorem charListLt_lt {s t : String} (h : charListLt s.data t.data = true) : s < t := by
  have hlex := charListLt_lex s.data t.data h
  exact String.lt_iff_toList_lt.mpr hlex

theorem pairLe_key_le {a b : String × Rat} (h : pairLe a b) : a.1 ≤ b.1 := by
  simp only [pairLe, pairLeB, Bool.or_eq_true, Bool.and_eq_true, decide_eq_true_eq] at h
  rcases h with h | ⟨h, _⟩
  · exact le_of_lt (charListLt_lt h)
  · exact le_of_eq h

theorem scanTitle_clean (fields : List (String × Json)) (metrics : MetricMap)
    (h : titleClean fields = true) : scanTitle fields metrics = metrics := by
  unfold titleClean at h
  unfold scanTitle
  split
  · rename_i t heq
    simp only [heq] at h
    split
    · rename_i n v heq2
      simp only [heq2, Option.isNone_some, Bool.false_eq_true] at h
    · rfl
  · rfl

theorem scanLoop_ok_of_objs :
    ∀ (n : Nat) (stack : List Json) (metrics : MetricMap), jsizeL stack = n →
      (∀ j ∈ stack, Json.isObj j = true) →
      ∃ metrics', scanLoop stack metrics = .ok metrics' := by
  intro n
  induction n using Nat.strong_induction_on with
  | _ n ih =>
    intro stack metrics hn hobj
    cases stack with
    | nil => exact ⟨metrics, by simp [scanLoop]⟩
    | cons j rest =>
      cases j
      case obj fields =>
        have hlt : jsizeL (childListOf fields "childActivities" ++ rest) < n :=
          hn ▸ jsizeL_push_lt fields "childActivities" rest
        have hobj' : ∀ x ∈ childListOf fields "childActivities" ++ rest,
            Json.isObj x = true := by
          intro x hx
          rcases List.mem_append.mp hx with hx | hx
          · exact mem_childListOf_isObj _ _ _ hx
          · exact hobj x (List.mem_cons_of_mem _ hx)
        obtain ⟨metrics', hm⟩ := ih _ hlt _ (scanTitle fields metrics) rfl hobj'
        exact ⟨metrics', by simp only [scanLoop]; exact hm⟩
      all_goals
        exact absurd (hobj _ (List.mem_cons_self _ _)) (by simp [Json.isObj])

theorem scanLoop_clean :
    ∀ (n : Nat) (stack : List Json) (metrics : MetricMap), jsizeL stack = n →
      (∀ j ∈ stack, Json.isObj j = true) → cleanStack stack = true →
      scanLoop stack metrics = .ok metrics := by
  intro n
  induction n using Nat.strong_induction_on with
  | _ n ih =>
    intro stack metrics hn hobj hclean
    cases stack with
    | nil => simp [scanLoop]
    | cons j rest =>
      cases j
      case obj fields =>
        simp only [cleanStack, Bool.and_eq_true] at hclean
        obtain ⟨ht, hrest⟩ := hclean
        have hlt : jsizeL (childListOf fields "childActivities" ++ rest) < n :=
          hn ▸ jsizeL_push_lt fields "childActivities" rest
        have hobj' : ∀ x ∈ childListOf fields "childActivities" ++ rest,
            Json.isObj x = true := by
          intro x hx
          rcases List.mem_append.mp hx with hx | hx
          · exact mem_childListOf_isObj _ _ _ hx
          · exact hobj x (List.mem_cons_of_mem _ hx)
        simp only [scanLoop]
        rw [scanTitle_clean fields metrics ht]
        exact ih _ hlt _ metrics rfl hobj' hrest
      all_goals
        exact absurd (hobj _ (List.mem_cons_self _ _)) (by simp [Json.isObj])

theorem collectStep_inv (fields : List (String × Json)) (seen tids : List String)
    (h1 : tids.Nodup) (h2 : ∀ s ∈ tids, s ∈ seen) :
    (collectStep fields seen tids).2.Nodup ∧
      ∀ s ∈ (collectStep fields seen tids).2, s ∈ (collectStep fields seen tids).1 := by
  unfold collectStep
  split
  · split
    · rename_i s heq
      split
      · rename_i hcond
        obtain ⟨hs, hnot⟩ := hcond
        constructor
        · rw [List.nodup_append]
          refine ⟨h1, List.nodup_singleton s, ?_⟩
          intro x hx hxs
          rw [List.mem_singleton] at hxs
          subst hxs
          exact hnot (h2 x hx)
        · intro x hx
          rcases List.mem_append.mp hx with hx | hx
          · exact List.mem_cons_of_mem _ (h2 x hx)
          · rw [List.mem_singleton] at hx
            subst hx
            exact List.mem_cons_self _ _
      · exact ⟨h1, h2⟩
    · exact ⟨h1, h2⟩
  · exact ⟨h1, h2⟩

theorem collectLoop_ok_of_objs :
    ∀ (n : Nat) (stack : List Json) (seen tids : List String), jsizeL stack = n →
      (∀ j ∈ stack, Json.isObj j = true) →
      ∃ r, collectLoop stack seen tids = .ok r := by
  intro n
  induction n using Nat.strong_induction_on with
  | _ n ih =>
    intro stack seen tids hn hobj
    cases stack with
    | nil => exact ⟨tids, by simp [collectLoop]⟩
    | cons j rest =>
      cases j
      case obj fields =>
        have hlt : jsizeL (childListOf fields "children" ++ rest) < n :=
          hn ▸ jsizeL_push_lt fields "children" rest
        have hobj' : ∀ x ∈ childListOf fields "children" ++ rest,
            Json.isObj x = true := by
          intro x hx
          rcases List.mem_append.mp hx with hx | hx
          · exact mem_childListOf_isObj _ _ _ hx
          · exact hobj x (List.mem_cons_of_mem _ hx)
        obtain ⟨r, hr⟩ := ih _ hlt _ (collectStep fields seen tids).1
          (collectStep fields seen tids).2 rfl hobj'
        exact ⟨r, by simp only [collectLoop]; exact hr⟩
      all_goals
        exact absurd (hobj _ (List.mem_cons_self _ _)) (by simp [Json.isObj])

theorem collectLoop_nodup :
    ∀ (n : Nat) (stack : List Json) (seen tids : List String), jsizeL stack = n →
      tids.Nodup → (∀ s ∈ tids, s ∈ seen) →
      ∀ r, collectLoop stack seen tids = .ok r → r.Nodup := by
  intro n
  induction n using Nat.strong_induction_on with
  | _ n ih =>
    intro stack seen tids hn h1 h2 r hr
    cases stack with
    | nil =>
      simp only [collectLoop] at hr
      cases hr
      exact h1
    | cons j rest =>
      cases j
      case obj fields =>
        simp only [collectLoop] at hr
        obtain ⟨h1', h2'⟩ := collectStep_inv fields seen tids h1 h2
        exact ih _ (hn ▸ jsizeL_push_lt fields "children" rest) _ _ _ rfl h1' h2' r hr
      all_goals (simp only [collectLoop] at hr; cases hr)

theorem scan_ok_of_objs (activities : List Json) (metrics : MetricMap)
    (h : activities.all Json.isObj = true) :
    ∃ metrics', scan_activities_for_metrics activities metrics = .ok metrics' := by
  apply scanLoop_ok_of_objs (jsizeL activities.reverse) _ _ rfl
  intro j hj
  rw [List.mem_reverse] at hj
  exact List.all_eq_true.mp h j hj

theorem runsLoop_ok_of_safe (runs : List Json) :
    ∀ metrics, runs.all runSafe = true →
      ∃ metrics', runsLoop runs metrics = .ok metrics' := by
  induction runs with
  | nil => intro metrics _; exact ⟨metrics, rfl⟩
  | cons r rest ih =>
    intro metrics h
    rw [List.all_cons, Bool.and_eq_true] at h
    obtain ⟨hr, hrest⟩ := h
    cases r
    case obj runFields =>
      cases ha : plookup runFields "activities" with
      | some v =>
        cases v
        case arr activities =>
          have hall : activities.all Json.isObj = true := by
            simp only [runSafe, ha] at hr
            exact hr
          obtain ⟨m1, hm1⟩ := scan_ok_of_objs activities metrics hall
          obtain ⟨m2, hm2⟩ := ih m1 hrest
          exact ⟨m2, by simp only [runsLoop, ha, hm1]; exact hm2⟩
        all_goals
          exact (by simp only [runsLoop, ha]; exact ih metrics hrest)
      | none =>
        exact (by simp only [runsLoop, ha]; exact ih metrics hrest)
    all_goals
      exact (by simp only [runsLoop]; exact ih metrics hrest)

theorem processOne_ok_of_safe (payload : Json) (metrics : MetricMap)
    (h : activitiesSafe payload = true) :
    ∃ metrics', processOne payload metrics = .ok metrics' := by
  cases payload
  case obj payloadFields =>
    cases ht : plookup payloadFields "testRuns" with
    | some v =>
      cases v
      case arr runs =>
        have hall : runs.all runSafe = true := by
          simp only [activitiesSafe, ht] at h
          exact h
        obtain ⟨m', hm⟩ := runsLoop_ok_of_safe runs metrics hall
        exact ⟨m', by simp only [processOne, ht]; exact hm⟩
      all_goals
        exact ⟨metrics, by simp only [processOne, ht]⟩
    | none => exact ⟨metrics, by simp only [processOne, ht]⟩
  all_goals (simp [activitiesSafe] at h)

theorem idsLoop_spec (queryActivities : String → Except Int Json) :
    ∀ (ids : List String) (metrics : MetricMap) (errs : List (String × String)),
      (∀ i ∈ ids, ∀ p, queryActivities i = .ok p → activitiesSafe p = true) →
      ∃ metrics',
        foldScan (successPayloads queryActivities ids) metrics = .ok metrics' ∧
        idsLoop queryActivities ids metrics errs =
          .ok (metrics', errs ++ failEntries queryActivities ids) := by
  intro ids
  induction ids with
  | nil =>
    intro metrics errs _
    exact ⟨metrics, by simp [foldScan, successPayloads], by simp [idsLoop, failEntries]⟩
  | cons i rest ih =>
    intro metrics errs h
    have hrest : ∀ x ∈ rest, ∀ p, queryActivities x = .ok p → activitiesSafe p = true :=
      fun x hx p hp => h x (List.mem_cons_of_mem _ hx) p hp
    cases hq : queryActivities i with
    | error code =>
      obtain ⟨m', hf, hl⟩ := ih metrics (errs ++ [errEntry i code]) hrest
      refine ⟨m', ?_, ?_⟩
      · have hsp : successPayloads queryActivities (i :: rest) =
            successPayloads queryActivities rest := by
          simp [successPayloads, List.filterMap_cons, hq, Except.toOption]
        rw [hsp]
        exact hf
      · have hfe : failEntries queryActivities (i :: rest) =
            errEntry i code :: failEntries queryActivities rest := by
          simp [failEntries, List.filterMap_cons, hq]
        rw [hfe]
        simp only [idsLoop, hq]
        rw [hl]
        simp [List.append_assoc]
    | ok payload =>
      have hsafe := h i (List.mem_cons_self _ _) payload hq
      obtain ⟨m1, hp1⟩ := processOne_ok_of_safe payload metrics hsafe
      obtain ⟨m', hf, hl⟩ := ih m1 errs hrest
      refine ⟨m', ?_, ?_⟩
      · have hsp : successPayloads queryActivities (i :: rest) =
            payload :: successPayloads queryActivities rest := by
          simp [successPayloads, List.filterMap_cons, hq, Except.toOption]
        rw [hsp]
        simp only [foldScan, hp1]
        exact hf
      · have hfe : failEntries queryActivities (i :: rest) =
            failEntries queryActivities rest := by
          simp [failEntries, List.filterMap_cons, hq]
        rw [hfe]
        simp only [idsLoop, hq, hp1]
        exact hl

theorem extract_metrics_ok_shape (path : String) (qT : Except Int Json)
    (qA : String → Except Int Json) (r : Report)
    (h : extract_metrics path qT qA = .ok r) :
    ∃ m, r.metrics = sortPairs m := by
  unfold extract_metrics at h
  repeat' split at h
  all_goals
    first
      | (cases h; exact ⟨_, rfl⟩)
      | cases h

/-- No metric marker is reachable from this activity forest, in the
scanner's own traversal order. -/
def noMarkers (activities : List Json) : Bool := cleanStack activities.reverse

/-- The activity forest of the scanner test: a metric title nested under a
parent with an unrelated title, and a second metric title nested one level
deeper under the first. -/
def c5Acts : List Json :=
  [Json.obj [("title", Json.str "unrelated parent"),
     ("childActivities", Json.arr
       [Json.obj [("title", Json.str "Latency metric startup_to_tabbar=4.821s"),
          ("childActivities", Json.arr
            [Json.obj [("title", Json.str "Latency metric reopen_to_tabbar=1.102s")]])]])]]

theorem scan_single_title (t : String) (m : MetricMap) :
    scan_activities_for_metrics [Json.obj [("title", Json.str t)]] m =
      .ok (scanTitle [("title", Json.str t)] m) := by
  simp [scan_activities_for_metrics, scanLoop, childListOf, plookup]

/-- C3: scanning `"Latency metric x=1.0s"` and then `"Latency metric x=2.0s"`
into any shared mapping leaves `x` bound to `2.0`: the later scanned value
overwrites the earlier one, with no averaging or accumulation. -/
theorem C3_duplicate_metric_last_wins (m : MetricMap) :
    ∃ m₁ m₂,
      scan_activities_for_metrics
          [Json.obj [("title", Json.str "Latency metric x=1.0s")]] m = .ok m₁ ∧
      scan_activities_for_metrics
          [Json.obj [("title", Json.str "Latency metric x=2.0s")]] m₁ = .ok m₂ ∧
      mlookup m₂ "x" = some (mkRat 2 1) := by
  have h1 : METRIC_PATTERN_search "Latency metric x=1.0s" = some ("x", mkRat 1 1) := by rfl
  have h2 : METRIC_PATTERN_search "Latency metric x=2.0s" = some ("x", mkRat 2 1) := by rfl
  refine ⟨dictInsert m "x" (mkRat 1 1),
    dictInsert (dictInsert m "x" (mkRat 1 1)) "x" (mkRat 2 1), ?_, ?_, ?_⟩
  · rw [scan_single_title]
    simp [scanTitle, plookup, h1]
  · rw [scan_single_title]
    simp [scanTitle, plookup, h2]
  · exact mlookup_dictInsert_self _ _ _

/-- C5: the scanner extracts a metric pair from every matching title at any
nesting depth: on `c5Acts` (a marker title two levels under a parent with an
unrelated title, plus a deeper nested marker title) the sink afterwards maps
`startup_to_tabbar` to 4.821 and `reopen_to_tabbar` to 1.102. -/
theorem C5_scan_extracts_nested_metrics :
    scan_activities_for_metrics c5Acts [] =
      .ok [("startup_to_tabbar", mkRat 4821 1000), ("reopen_to_tabbar", mkRat 1102 1000)] ∧
    mlookup [("startup_to_tabbar", mkRat 4821 1000), ("reopen_to_tabbar", mkRat 1102 1000)]
        "startup_to_tabbar" = some (mkRat 4821 1000) ∧
    mlookup [("startup_to_tabbar", mkRat 4821 1000), ("reopen_to_tabbar", mkRat 1102 1000)]
        "reopen_to_tabbar" = some (mkRat 1102 1000) := by
  have h1 : METRIC_PATTERN_search "unrelated parent" = none := by rfl
  have h2 : METRIC_PATTERN_search "Latency metric startup_to_tabbar=4.821s" =
      some ("startup_to_tabbar", mkRat 4821 1000) := by rfl
  have h3 : METRIC_PATTERN_search "Latency metric reopen_to_tabbar=1.102s" =
      some ("reopen_to_tabbar", mkRat 1102 1000) := by rfl
  refine ⟨?_, by rfl, by rfl⟩
  simp [c5Acts, scan_activities_for_metrics, scanLoop, scanTitle, childListOf, plookup,
    h1, h2, h3, dictInsert, Json.isObj]

/-- C10: the marker is recognized by substring search — a title with text
around the marker still yields the pair — and when one title holds several
markers only the leftmost occurrence is recorded into the sink. -/
theorem C10_substring_first_match :
    scan_activities_for_metrics
        [Json.obj [("title", Json.str "prefix Latency metric x=1.0s suffix")]] [] =
      .ok [("x", mkRat 1 1)] ∧
    scan_activities_for_metrics
        [Json.obj [("title", Json.str "Latency metric a=1.5s and Latency metric b=2.5s")]] [] =
      .ok [("a", mkRat 15 10)] := by
  have h1 : METRIC_PATTERN_search "prefix Latency metric x=1.0s suffix" =
      some ("x", mkRat 1 1) := by rfl
  have h2 : METRIC_PATTERN_search "Latency metric a=1.5s and Latency metric b=2.5s" =
      some ("a", mkRat 15 10) := by rfl
  constructor
  · rw [scan_single_title]
    simp [scanTitle, plookup, h1, dictInsert]
  · rw [scan_single_title]
    simp [scanTitle, plookup, h2, dictInsert]

/-- C6: on a "Test Case" node carrying both identifier fields the collector
records `nodeIdentifierURL`; `nodeIdentifier` is used only when the URL form
is empty (first conjunct) or absent (second conjunct), and a node with
neither usable field is skipped. -/
theorem C6_url_identifier_preferred (u i : String) :
    collect_test_ids [Json.obj [("nodeType", Json.str "Test Case"),
        ("nodeIdentifierURL", Json.str u), ("nodeIdentifier", Json.str i)]] =
      .ok (if u ≠ "" then [u] else if i ≠ "" then [i] else []) ∧
    collect_test_ids [Json.obj [("nodeType", Json.str "Test Case"),
        ("nodeIdentifier", Json.str i)]] =
      .ok (if i ≠ "" then [i] else []) := by
  constructor
  · by_cases hu : u = ""
    · subst hu
      by_cases hi : i = ""
      · subst hi
        simp [collect_test_ids, collectLoop, collectStep, childListOf, plookup,
          isTestCase, pyOr, pyTruthy]
      · simp [collect_test_ids, collectLoop, collectStep, childListOf, plookup,
          isTestCase, pyOr, pyTruthy, hi]
    · simp [collect_test_ids, collectLoop, collectStep, childListOf, plookup,
        isTestCase, pyOr, pyTruthy, hu]
  · by_cases hi : i = ""
    · subst hi
      simp [collect_test_ids, collectLoop, collectStep, childListOf, plookup,
        isTestCase, pyOr, pyTruthy]
    · simp [collect_test_ids, collectLoop, collectStep, childListOf, plookup,
        isTestCase, pyOr, pyTruthy, hi]

/-- C9: a "Test Case" node whose `nodeIdentifierURL` holds a truthy
non-string value yields no identifier at all, even though its
`nodeIdentifier` is a valid non-empty string: the truthy non-string value
short-circuits the `or` and then fails the string check. -/
theorem C9_truthy_nonstring_url_skips (v : Json) (i : String)
    (hv : pyTruthy v = true) (hs : Json.isStr v = false) (hi : i ≠ "") :
    collect_test_ids [Json.obj [("nodeType", Json.str "Test Case"),
        ("nodeIdentifierURL", v), ("nodeIdentifier", Json.str i)]] = .ok [] := by
  cases v
  case str s => simp [Json.isStr] at hs
  all_goals
    simp_all [collect_test_ids, collectLoop, collectStep, childListOf, plookup,
      isTestCase, pyOr, pyTruthy]

/-- C9 witness: the theorem applied to the URL value `7` and the plain
identifier `"valid"`. -/
theorem C9_truthy_nonstring_url_skips_witness :
    pyTruthy (Json.num (mkRat 7 1)) = true ∧
    Json.isStr (Json.num (mkRat 7 1)) = false ∧
    "valid" ≠ "" ∧
    collect_test_ids [Json.obj [("nodeType", Json.str "Test Case"),
        ("nodeIdentifierURL", Json.num (mkRat 7 1)),
        ("nodeIdentifier", Json.str "valid")]] = .ok [] :=
  ⟨by decide, by decide, by decide,
    C9_truthy_nonstring_url_skips (Json.num (mkRat 7 1)) "valid"
      (by decide) (by decide) (by decide)⟩

/-- C4: on a forest of dict nodes the collector succeeds, its output has no
duplicate identifier, and it is deterministic: any two runs on the same
input return the same list. -/
theorem C4_collect_nodup_deterministic (test_nodes : List Json)
    (h : test_nodes.all Json.isObj = true) :
    ∃ ids, collect_test_ids test_nodes = .ok ids ∧ ids.Nodup ∧
      ∀ ids', collect_test_ids test_nodes = .ok ids' → ids' = ids := by
  have hobj : ∀ j ∈ test_nodes.reverse, Json.isObj j = true := by
    intro j hj
    rw [List.mem_reverse] at hj
    exact List.all_eq_true.mp h j hj
  obtain ⟨ids, hok⟩ :=
    collectLoop_ok_of_objs (jsizeL test_nodes.reverse) test_nodes.reverse [] [] rfl hobj
  refine ⟨ids, hok, ?_, ?_⟩
  · exact collectLoop_nodup _ _ _ _ rfl List.nodup_nil (by simp) ids hok
  · intro ids' h'
    unfold collect_test_ids at h'
    rw [hok] at h'
    exact (Except.ok.inj h').symm

/-- The nested forest of the collector test: one test case with a URL-form
identifier next to a suite holding a test case with a plain identifier. -/
def c4Forest : List Json :=
  [Json.obj [("nodeType", Json.str "Test Plan"),
     ("children", Json.arr
       [Json.obj [("nodeType", Json.str "Test Case"),
          ("nodeIdentifierURL", Json.str "test://A")],
        Json.obj [("nodeType", Json.str "Test Suite"),
          ("children", Json.arr
            [Json.obj [("nodeType", Json.str "Test Case"),
               ("nodeIdentifier", Json.str "test://B")]])]])]]

/-- C4 witness: the theorem applied to the nested two-test-case forest. -/
theorem C4_collect_nodup_deterministic_witness :
    c4Forest.all Json.isObj = true ∧
    (∃ ids, collect_test_ids c4Forest = .ok ids ∧ ids.Nodup ∧
      ∀ ids', collect_test_ids c4Forest = .ok ids' → ids' = ids) :=
  ⟨by decide, C4_collect_nodup_deterministic c4Forest (by decide)⟩

/-- C8: the scanner is total on any forest of dict activities — it returns a
result and never raises — and when no reachable title carries a marker (the
title is marker-free or not a string, child lists may be missing) the sink
comes back unchanged. -/
theorem C8_scan_total_and_skips (activities : List Json) (metrics : MetricMap)
    (hobj : activities.all Json.isObj = true) :
    (∃ metrics', scan_activities_for_metrics activities metrics = .ok metrics') ∧
    (noMarkers activities = true →
      scan_activities_for_metrics activities metrics = .ok metrics) := by
  constructor
  · exact scan_ok_of_objs activities metrics hobj
  · intro hclean
    apply scanLoop_clean (jsizeL activities.reverse) _ _ rfl
    · intro j hj
      rw [List.mem_reverse] at hj
      exact List.all_eq_true.mp hobj j hj
    · exact hclean

/-- Activities with a non-string title, a marker-free string title, and a
node with no fields at all (no `title`, no `childActivities`). -/
def c8Acts : List Json :=
  [Json.obj [("title", Json.num (mkRat 3 1))],
   Json.obj [("title", Json.str "no marker here")],
   Json.obj []]

/-- C8 witness: the theorem applied to `c8Acts` and an empty sink. -/
theorem C8_scan_total_and_skips_witness :
    c8Acts.all Json.isObj = true ∧
    ((∃ metrics', scan_activities_for_metrics c8Acts [] = .ok metrics') ∧
      (noMarkers c8Acts = true → scan_activities_for_metrics c8Acts [] = .ok [])) :=
  ⟨by decide, C8_scan_total_and_skips c8Acts [] (by decide)⟩

/-- C1 counterexample: with an empty `testNodes` list the extraction does
not fail — it returns a complete report with zero tests scanned, no
metrics and no errors, so the run exits 0 and emits a report. -/
theorem C1_empty_testNodes_counterexample :
    extract_metrics "bundle.xcresult" (.ok (.obj [("testNodes", Json.arr [])]))
        (fun _ => .error 1) =
      .ok { xcresult_path := "bundle.xcresult", tests_scanned := 0, metric_count := 0,
            metrics := [], errors := [] } := by
  simp [extract_metrics, plookup, collect_test_ids, collectLoop, idsLoop, sortPairs,
    List.insertionSort]

/-- C1 (amended): when the top-level response's `testNodes` key is missing
or maps to a non-sequence value, `extract_metrics` raises the structural
`RuntimeError` (fatal, no report); an empty sequence is not covered — it
yields a report (see the counterexample). -/
theorem C1_missing_or_nonlist_testNodes_fatal (path : String)
    (payloadFields : List (String × Json)) (queryActivities : String → Except Int Json)
    (h : ∀ elems, plookup payloadFields "testNodes" ≠ some (Json.arr elems)) :
    extract_metrics path (.ok (.obj payloadFields)) queryActivities =
      .error (.runtime "Unable to parse test nodes from xcresult.") := by
  cases ht : plookup payloadFields "testNodes" with
  | none => simp [extract_metrics, ht]
  | some v =>
    cases v
    case arr elems => exact absurd ht (h elems)
    all_goals simp [extract_metrics, ht]

/-- C1 witness: the amended theorem applied to a payload without a
`testNodes` key. -/
theorem C1_missing_or_nonlist_testNodes_fatal_witness :
    (∀ elems, plookup [("otherKey", Json.null)] "testNodes" ≠ some (Json.arr elems)) ∧
    extract_metrics "bundle.xcresult" (.ok (.obj [("otherKey", Json.null)]))
        (fun _ => .error 1) =
      .error (.runtime "Unable to parse test nodes from xcresult.") := by
  have h : ∀ elems, plookup [("otherKey", Json.null)] "testNodes" ≠ some (Json.arr elems) := by
    intro elems hcontra
    simp [plookup] at hcontra
  exact ⟨h, C1_missing_or_nonlist_testNodes_fatal "bundle.xcresult" _ _ h⟩

/-- C2: when every successful activities payload is scannable, the
extraction returns a report that scans exactly the successful identifiers'
payloads in order into the metric mapping (a mid-run failure discards
nothing and blocks nothing), counts all collected identifiers in
`tests_scanned`, and records exactly one exit-code error entry per failed
identifier, in order. -/
theorem C2_per_id_failure_isolated (path : String)
    (payloadFields : List (String × Json)) (testNodes : List Json) (ids : List String)
    (queryActivities : String → Except Int Json)
    (h1 : plookup payloadFields "testNodes" = some (Json.arr testNodes))
    (h2 : collect_test_ids testNodes = .ok ids)
    (h3 : ∀ i ∈ ids, ∀ p, queryActivities i = .ok p → activitiesSafe p = true) :
    ∃ metrics,
      foldScan (successPayloads queryActivities ids) [] = .ok metrics ∧
      extract_metrics path (.ok (.obj payloadFields)) queryActivities =
        .ok { xcresult_path := path
            , tests_scanned := ids.length
            , metric_count := metrics.length
            , metrics := sortPairs metrics
            , errors := failEntries queryActivities ids } := by
  obtain ⟨m', hf, hl⟩ := idsLoop_spec queryActivities ids [] [] h3
  refine ⟨m', hf, ?_⟩
  rw [List.nil_append] at hl
  simp [extract_metrics, h1, h2, hl]

/-- Three flat test-case nodes; their collection order is C, B, A reversed
by the stack walk, so the identifiers come out as A, B, C. -/
def c2Forest : List Json :=
  [Json.obj [("nodeType", Json.str "Test Case"), ("nodeIdentifier", Json.str "test://C")],
   Json.obj [("nodeType", Json.str "Test Case"), ("nodeIdentifier", Json.str "test://B")],
   Json.obj [("nodeType", Json.str "Test Case"), ("nodeIdentifier", Json.str "test://A")]]

/-- Activities payload holding one metric title. -/
def c2Payload (title : String) : Json :=
  Json.obj [("testRuns", Json.arr [Json.obj [("activities", Json.arr
    [Json.obj [("title", Json.str title)]])]])]

/-- Query where the second identifier fails with exit code 65 and the other
two succeed with one metric each. -/
def c2Query : String → Except Int Json := fun i =>
  if i = "test://B" then .error 65
  else if i = "test://A" then .ok (c2Payload "Latency metric first_metric=1.5s")
  else .ok (c2Payload "Latency metric third_metric=2.5s")

/-- C2 witness: the theorem applied to three identifiers of which the
second fails. -/
theorem C2_per_id_failure_isolated_witness :
    (plookup [("testNodes", Json.arr c2Forest)] "testNodes" = some (Json.arr c2Forest)) ∧
    (collect_test_ids c2Forest = .ok ["test://A", "test://B", "test://C"]) ∧
    (∀ i ∈ ["test://A", "test://B", "test://C"], ∀ p,
      c2Query i = .ok p → activitiesSafe p = true) ∧
    (∃ metrics,
      foldScan (successPayloads c2Query ["test://A", "test://B", "test://C"]) [] =
        .ok metrics ∧
      extract_metrics "bundle.xcresult" (.ok (.obj [("testNodes", Json.arr c2Forest)]))
          c2Query =
        .ok { xcresult_path := "bundle.xcresult"
            , tests_scanned := 3
            , metric_count := metrics.length
            , metrics := sortPairs metrics
            , errors := failEntries c2Query ["test://A", "test://B", "test://C"] }) := by
  have h2 : collect_test_ids c2Forest = .ok ["test://A", "test://B", "test://C"] := by
    simp [c2Forest, collect_test_ids, collectLoop, collectStep, childListOf, plookup,
      isTestCase, pyOr, pyTruthy]
  have h3 : ∀ i ∈ ["test://A", "test://B", "test://C"], ∀ p,
      c2Query i = .ok p → activitiesSafe p = true := by
    intro i hi p hp
    simp only [List.mem_cons, List.not_mem_nil, or_false] at hi
    rcases hi with rfl | rfl | rfl
    · simp [c2Query] at hp
      subst hp
      decide
    · simp [c2Query] at hp
    · simp [c2Query] at hp
      subst hp
      decide
  exact ⟨rfl, h2, h3,
    C2_per_id_failure_isolated "bundle.xcresult" [("testNodes", Json.arr c2Forest)]
      c2Forest ["test://A", "test://B", "test://C"] c2Query rfl h2 h3⟩

/-- C7: every report returned by `extract_metrics` lists its metric keys in
lexicographically sorted order, whatever order the names were discovered
in. -/
theorem C7_report_metrics_sorted (path : String) (queryTests : Except Int Json)
    (queryActivities : String → Except Int Json) (r : Report)
    (h : extract_metrics path queryTests queryActivities = .ok r) :
    List.Pairwise (fun a b : String => a ≤ b) (r.metrics.map Prod.fst) := by
  obtain ⟨m, hm⟩ := extract_metrics_ok_shape path queryTests queryActivities r h
  rw [hm, List.pairwise_map]
  exact (sortPairs_sorted m).imp pairLe_key_le

/-- Payload whose two metrics are discovered in reverse-alphabetical order
(the stack pops `zebra_metric` first). -/
def c7Payload : Json :=
  Json.obj [("testRuns", Json.arr [Json.obj [("activities", Json.arr
    [Json.obj [("title", Json.str "Latency metric alpha_metric=2.0s")],
     Json.obj [("title", Json.str "Latency metric zebra_metric=1.0s")]])]])]

/-- Query answering every identifier with `c7Payload`. -/
def c7Query : String → Except Int Json := fun _ => .ok c7Payload

/-- The report produced for one test case and the two `c7Payload` metrics:
keys sorted even though zebra was discovered first. -/
def c7Report : Report :=
  { xcresult_path := "bundle.xcresult", tests_scanned := 1, metric_count := 2,
    metrics := [("alpha_metric", mkRat 2 1), ("zebra_metric", mkRat 1 1)], errors := [] }

/-- C7 witness: the theorem applied to a run whose metrics were discovered
in reverse-alphabetical order. -/
theorem C7_report_metrics_sorted_witness :
    extract_metrics "bundle.xcresult"
        (.ok (.obj [("testNodes", Json.arr
          [Json.obj [("nodeType", Json.str "Test Case"),
             ("nodeIdentifier", Json.str "test://only")]])]))
        c7Query = .ok c7Report ∧
    List.Pairwise (fun a b : String => a ≤ b) (c7Report.metrics.map Prod.fst) := by
  have hz : METRIC_PATTERN_search "Latency metric zebra_metric=1.0s" =
      some ("zebra_metric", mkRat 1 1) := by rfl
  have ha : METRIC_PATTERN_search "Latency metric alpha_metric=2.0s" =
      some ("alpha_metric", mkRat 2 1) := by rfl
  have hsort : sortPairs [("zebra_metric", (1 : Rat)), ("alpha_metric", (2 : Rat))] =
      [("alpha_metric", (2 : Rat)), ("zebra_metric", (1 : Rat))] := by decide
  have heval : extract_metrics "bundle.xcresult"
      (.ok (.obj [("testNodes", Json.arr
        [Json.obj [("nodeType", Json.str "Test Case"),
           ("nodeIdentifier", Json.str "test://only")]])]))
      c7Query = .ok c7Report := by
    simp [extract_metrics, plookup, collect_test_ids, collectLoop, collectStep,
      childListOf, isTestCase, pyOr, pyTruthy, idsLoop, c7Query, processOne, runsLoop,
      scan_activities_for_metrics, scanLoop, scanTitle, hz, ha, dictInsert, hsort,
      c7Payload, c7Report, Json.isObj]
  exact ⟨heval, C7_report_metrics_sorted _ _ _ _ heval⟩

end TraiMetrics
